import Mathlib

/-!
Verification of the atomprice ingestion/quorum/ledger subsystem.

The JavaScript sources are shallowly embedded:
* JS strings are modelled as `List Char` (`Str`); JS string comparison
  (`localeCompare`, `<`, `>=`) on the ASCII ISO-8601 keys and ids used by the
  scripts coincides with code-unit order, modelled by `strLt` / `strLe`.
* JS numbers are modelled by `JSNum`: `NaN` or a finite value kept as an
  unreduced fraction `n / d` (`d` positive by convention at every use site).
  Float rounding error is not modelled; the scripts only compare, add and
  `toFixed(6)` the amounts, which the fraction model covers exactly.
* `Array.prototype.sort` (stable in ECMAScript) is modelled by the stable
  insertion sort `sortLe`.
* `fs` side effects are modelled by explicit state passing: a ledger is a
  function from partition key to the list of rows in that partition file.
-/

/-- JS strings, modelled as their character lists. -/
abbrev Str := List Char

/-- Character list of a literal, used to write `Str` constants. -/
def str (s : String) : Str := s.data

/-- JS `String.prototype.toLowerCase` on the ASCII data in scope. -/
def lower (s : Str) : Str := s.map Char.toLower

/-- JS `String.prototype.toUpperCase` on the ASCII data in scope. -/
def upper (s : Str) : Str := s.map Char.toUpper

/-- Strict code-unit order on strings, as used by JS `<` and `localeCompare`
on the ASCII keys in scope. -/
def strLt : Str → Str → Bool
  | [], [] => false
  | [], _ :: _ => true
  | _ :: _, [] => false
  | a :: as, b :: bs =>
    if a.toNat < b.toNat then true
    else if b.toNat < a.toNat then false
    else strLt as bs

/-- Non-strict code-unit order on strings. -/
def strLe : Str → Str → Bool
  | [], _ => true
  | _ :: _, [] => false
  | a :: as, b :: bs =>
    if a.toNat < b.toNat then true
    else if b.toNat < a.toNat then false
    else strLe as bs

theorem strLe_total (a b : Str) : strLe a b || strLe b a := by
  induction a generalizing b with
  | nil => simp [strLe]
  | cons x xs ih =>
    cases b with
    | nil => simp [strLe]
    | cons y ys =>
      by_cases h1 : x.toNat < y.toNat
      · simp [strLe, h1]
      · by_cases h2 : y.toNat < x.toNat
        · simp [strLe, h1, h2]
        · simpa [strLe, h1, h2] using ih ys

theorem strLe_trans (a b c : Str) (hab : strLe a b) (hbc : strLe b c) :
    strLe a c := by
  induction a generalizing b c with
  | nil => simp [strLe]
  | cons x xs ih =>
    cases b with
    | nil => simp [strLe] at hab
    | cons y ys =>
      cases c with
      | nil => simp [strLe] at hbc
      | cons z zs =>
        simp only [strLe] at hab hbc ⊢
        by_cases h1 : x.toNat < y.toNat
        · by_cases h2 : y.toNat < z.toNat
          · simp [show x.toNat < z.toNat by omega]
          · by_cases h2' : z.toNat < y.toNat
            · simp [h2, h2'] at hbc
            · simp [show x.toNat < z.toNat by omega]
        · by_cases h1' : y.toNat < x.toNat
          · simp [h1, h1'] at hab
          · simp only [h1, h1', if_false] at hab
            by_cases h2 : y.toNat < z.toNat
            · simp [show x.toNat < z.toNat by omega]
            · by_cases h2' : z.toNat < y.toNat
              · simp [h2, h2'] at hbc
              · simp only [h2, h2', if_false] at hbc
                have hxz : ¬ x.toNat < z.toNat := by omega
                have hzx : ¬ z.toNat < x.toNat := by omega
                simp only [hxz, hzx, if_false]
                exact ih ys zs hab hbc

/-- Whether `pat` occurs as a contiguous substring of `s`
(JS `String.prototype.includes`). -/
def containsSub (s pat : Str) : Bool :=
  match s with
  | [] => pat.isEmpty
  | c :: rest => pat.isPrefixOf (c :: rest) || containsSub rest pat

/-- A JavaScript number: `NaN`, or a finite value kept as the unreduced
fraction `n / d` (with `d` positive at every construction site). -/
inductive JSNum where
  | nan : JSNum
  | fin (n : Int) (d : Nat) : JSNum
deriving DecidableEq, Repr

/-- JS `Number.isFinite`. -/
def JSNum.isFinite : JSNum → Bool
  | .nan => false
  | .fin _ _ => true

/-- JS `x <= 0`; false for `NaN` exactly as in JS. -/
def JSNum.leZero : JSNum → Bool
  | .nan => false
  | .fin n _ => n ≤ 0

/-- JS truthiness of a number: `0` and `NaN` are falsy. -/
def JSNum.truthy : JSNum → Bool
  | .nan => false
  | .fin n _ => !(n == 0)

/-- JS `x + y` on numbers (exact in the fraction model). -/
def JSNum.add : JSNum → JSNum → JSNum
  | .nan, _ => .nan
  | .fin _ _, .nan => .nan
  | .fin n1 d1, .fin n2 d2 => .fin (n1 * (d2 : Int) + n2 * (d1 : Int)) (d1 * d2)

/-- JS `x - y` on numbers (exact in the fraction model). -/
def JSNum.sub : JSNum → JSNum → JSNum
  | .nan, _ => .nan
  | .fin _ _, .nan => .nan
  | .fin n1 d1, .fin n2 d2 => .fin (n1 * (d2 : Int) - n2 * (d1 : Int)) (d1 * d2)

/-- The integer nearest `(n / d) * 10^6`, ties toward `+∞`, as specified for
`Number.prototype.toFixed`: `⌊n * 10^6 / d + 1 / 2⌋` computed over `Int`. -/
def microRounded (n : Int) (d : Nat) : Int :=
  Int.ediv (2 * n * 1000000 + (d : Int)) (2 * (d : Int))

/-- Decimal digits of a natural number. -/
def natDigits (a : Nat) : Str := (Nat.repr a).data

/-- Pad a digit string on the left with zeros to length 6
(the fractional part of a `toFixed(6)` rendering). -/
def pad6 (s : Str) : Str := List.replicate (6 - s.length) '0' ++ s

/-- JS `Number.prototype.toFixed(6)`. -/
def toFixed6 : JSNum → Str
  | .nan => str "NaN"
  | .fin n d =>
    let m := microRounded n d
    let a := m.natAbs
    let body := natDigits (a / 1000000) ++ ['.'] ++ pad6 (natDigits (a % 1000000))
    if m < 0 then '-' :: body else body

/-- JS `String(i)` for an integer. -/
def intStr (i : Int) : Str := (toString i).data

/-- First `some` with a non-empty payload, modelling a JS `a || b || …` chain
over possibly-missing strings (the empty string is falsy). -/
def firstTruthy : List (Option Str) → Option Str
  | [] => none
  | x :: rest =>
    match x with
    | some s => if s.isEmpty then firstTruthy rest else some s
    | none => firstTruthy rest

/-- JS `a || b || 0` over possibly-missing numbers where `0` is falsy
(used for the `height` aliases). -/
def firstTruthyInt : List (Option Int) → Int
  | [] => 0
  | x :: rest =>
    match x with
    | some n => if n = 0 then firstTruthyInt rest else n
    | none => firstTruthyInt rest

/-- Stable insert used by `sortLe`: an element moves past `b` only while
`le b a` holds, so the relative order of `le`-equivalent elements is kept. -/
def insertOrd (le : α → α → Bool) (a : α) : List α → List α
  | [] => [a]
  | b :: bs => if le b a then b :: insertOrd le a bs else a :: b :: bs

/-- Stable comparison sort, modelling `Array.prototype.sort(cmp)`
(stable per ECMAScript 2019). -/
def sortLe (le : α → α → Bool) : List α → List α
  | [] => []
  | a :: as => insertOrd le a (sortLe le as)

theorem mem_insertOrd (le : α → α → Bool) (a x : α) (l : List α) :
    x ∈ insertOrd le a l ↔ x = a ∨ x ∈ l := by
  induction l with
  | nil => simp [insertOrd]
  | cons b bs ih =>
    by_cases h : le b a
    · simp only [insertOrd, h, if_true, List.mem_cons, ih]
      tauto
    · have hf : le b a = false := by simpa using h
      simp only [insertOrd, hf, Bool.false_eq_true, if_false, List.mem_cons]

theorem length_insertOrd (le : α → α → Bool) (a : α) (l : List α) :
    (insertOrd le a l).length = l.length + 1 := by
  induction l with
  | nil => simp [insertOrd]
  | cons b bs ih =>
    by_cases h : le b a <;> simp [insertOrd, h, ih]

theorem mem_sortLe (le : α → α → Bool) (x : α) (l : List α) :
    x ∈ sortLe le l ↔ x ∈ l := by
  induction l with
  | nil => simp [sortLe]
  | cons a as ih => simp [sortLe, mem_insertOrd, ih]

theorem length_sortLe (le : α → α → Bool) (l : List α) :
    (sortLe le l).length = l.length := by
  induction l with
  | nil => simp [sortLe]
  | cons a as ih => simp [sortLe, length_insertOrd, ih]

theorem pairwise_insertOrd (le : α → α → Bool)
    (trans : ∀ a b c, le a b → le b c → le a c)
    (total : ∀ a b, le a b || le b a)
    (a : α) (l : List α) (h : l.Pairwise (fun x y => le x y = true)) :
    (insertOrd le a l).Pairwise (fun x y => le x y = true) := by
  induction l with
  | nil => simp [insertOrd]
  | cons b bs ih =>
    rcases List.pairwise_cons.mp h with ⟨hb, hbs⟩
    by_cases hba : le b a
    · simp only [insertOrd, hba, if_true]
      refine List.pairwise_cons.mpr ⟨?_, ih hbs⟩
      intro y hy
      rcases (mem_insertOrd le a y bs).mp hy with rfl | hmem
      · exact hba
      · exact hb y hmem
    · have hab : le a b = true := by
        have := total a b
        cases habv : le a b with
        | true => rfl
        | false =>
          rw [habv] at this
          simp at this
          exact absurd this hba
      simp only [insertOrd, hba, if_false]
      refine List.pairwise_cons.mpr ⟨?_, h⟩
      intro y hy
      rcases List.mem_cons.mp hy with rfl | hmem
      · exact hab
      · exact trans a b y hab (hb y hmem)

theorem pairwise_sortLe (le : α → α → Bool)
    (trans : ∀ a b c, le a b → le b c → le a c)
    (total : ∀ a b, le a b || le b a) (l : List α) :
    (sortLe le l).Pairwise (fun x y => le x y = true) := by
  induction l with
  | nil => simp [sortLe]
  | cons a as ih => exact pairwise_insertOrd le trans total a (sortLe le as) ih

/-- Accumulator pass of `dedupKeepFirst`: keeps each element the first time
it shows up, tracking what was already emitted. -/
def dedupAux [DecidableEq α] (seen : List α) : List α → List α
  | [] => []
  | a :: rest =>
    if seen.contains a then dedupAux seen rest
    else a :: dedupAux (a :: seen) rest

/-- First-occurrence deduplication, modelling JS `Set` / `Map` insertion
order (`[...new Set(xs)]` keeps the first occurrence of each element). -/
def dedupKeepFirst [DecidableEq α] (l : List α) : List α := dedupAux [] l

theorem mem_dedupAux [DecidableEq α] (x : α) (seen l : List α) :
    x ∈ dedupAux seen l ↔ x ∈ l ∧ x ∉ seen := by
  induction l generalizing seen with
  | nil => simp [dedupAux]
  | cons a rest ih =>
    by_cases h : seen.contains a
    · have ha : a ∈ seen := by simpa [List.elem_iff] using h
      rw [dedupAux, if_pos h, ih, List.mem_cons]
      constructor
      · rintro ⟨hm, hs⟩
        exact ⟨Or.inr hm, hs⟩
      · rintro ⟨rfl | hm, hs⟩
        · exact absurd ha hs
        · exact ⟨hm, hs⟩
    · have ha : a ∉ seen := by simpa [List.elem_iff] using h
      rw [dedupAux, if_neg h]
      simp only [List.mem_cons, ih (a :: seen), List.mem_cons]
      constructor
      · rintro (rfl | ⟨hm, hs⟩)
        · exact ⟨Or.inl rfl, ha⟩
        · exact ⟨Or.inr hm, fun hx => hs (Or.inr hx)⟩
      · rintro ⟨rfl | hm, hs⟩
        · exact Or.inl rfl
        · by_cases hxa : x = a
          · exact Or.inl hxa
          · exact Or.inr ⟨hm, fun hx => by
              rcases hx with hx | hx
              · exact hxa hx
              · exact hs hx⟩

theorem mem_dedupKeepFirst [DecidableEq α] (x : α) (l : List α) :
    x ∈ dedupKeepFirst l ↔ x ∈ l := by
  rw [dedupKeepFirst, mem_dedupAux]
  simp

theorem length_filter_add_length_filter_not (l : List α) (p : α → Bool) :
    (l.filter p).length + (l.filter (fun a => !p a)).length = l.length := by
  induction l with
  | nil => simp
  | cons a as ih =>
    cases h : p a <;> simp [List.filter, h, ← ih] <;> omega

theorem length_filterMap_of_isSome {α β : Type _} (f : α → Option β) (l : List α)
    (h : ∀ a ∈ l, (f a).isSome) : (l.filterMap f).length = l.length := by
  induction l with
  | nil => simp
  | cons a as ih =>
    have ha := h a (List.mem_cons_self a as)
    rcases Option.isSome_iff_exists.mp ha with ⟨b, hb⟩
    simp only [List.filterMap_cons, hb, List.length_cons]
    rw [ih (fun x hx => h x (List.mem_cons_of_mem a hx))]

/-!
Embedding of `scripts/v2/ingest-events-v2.mjs` (src/unnamed/part_002).
-/

/-- A raw provider record, with the alias fields `normalizeEvent` resolves.
String fields are `Option Str` (a missing field is `none`; the empty string
is separately falsy), numeric fields `Option Int` / `Option JSNum`. -/
structure RawEvent where
  type : Option Str := none
  msg_type : Option Str := none
  action : Option Str := none
  event_type : Option Str := none
  txhash : Option Str := none
  tx_hash : Option Str := none
  hash : Option Str := none
  transaction_hash : Option Str := none
  msg_index : Option Int := none
  message_index : Option Int := none
  event_index : Option Int := none
  log_index : Option Int := none
  amount_atom : Option JSNum := none
  amount : Option JSNum := none
  atom : Option JSNum := none
  timestamp : Option Str := none
  block_time : Option Str := none
  time : Option Str := none
  completion_time : Option Str := none
  height : Option Int := none
  block_height : Option Int := none
  delegator : Option Str := none
  delegator_address : Option Str := none
  address : Option Str := none
  validator_addr : Option Str := none
  validator : Option Str := none
  validator_address : Option Str := none
  validator_name : Option Str := none
  validator_moniker : Option Str := none
deriving DecidableEq, Repr

/-- A normalized event as produced by `normalizeEvent`. -/
structure Event where
  id : Str
  chain_id : Str
  source : Str
  type : Str
  txhash : Str
  msg_index : Int
  event_index : Int
  timestamp : Option Str
  height : Int
  delegator : Str
  validator_addr : Str
  validator_name : Str
  amount_atom : JSNum
  ingested_at : Str
deriving DecidableEq, Repr

/-- `normalizeType`: case-folds and keyword-matches the raw type string. -/
def normalizeType (v : Option Str) : Option Str :=
  let t := lower (v.getD [])
  if containsSub t (str "undelegate") || containsSub t (str "unbond") then
    some (str "undelegate")
  else if containsSub t (str "delegate") then some (str "delegate")
  else none

/-- `ev.type || ev.msg_type || ev.action || ev.event_type`. -/
def rawTypeField (ev : RawEvent) : Option Str :=
  firstTruthy [ev.type, ev.msg_type, ev.action, ev.event_type]

/-- `String(ev.txhash || ev.tx_hash || ev.hash || ev.transaction_hash || '').toUpperCase()`. -/
def rawTxhash (ev : RawEvent) : Str :=
  upper ((firstTruthy [ev.txhash, ev.tx_hash, ev.hash, ev.transaction_hash]).getD [])

/-- `Number(ev.msg_index ?? ev.message_index ?? 0)` (nullish coalescing). -/
def rawMsgIndex (ev : RawEvent) : Int :=
  (ev.msg_index.or ev.message_index).getD 0

/-- `Number(ev.event_index ?? ev.log_index ?? 0)` (nullish coalescing). -/
def rawEventIndex (ev : RawEvent) : Int :=
  (ev.event_index.or ev.log_index).getD 0

/-- `Number(ev.amount_atom ?? ev.amount ?? ev.atom ?? 0)` (nullish coalescing). -/
def rawAmount (ev : RawEvent) : JSNum :=
  ((ev.amount_atom.or ev.amount).or ev.atom).getD (JSNum.fin 0 1)

/-- `ev.timestamp || ev.block_time || ev.time || ev.completion_time`. -/
def rawTimestampField (ev : RawEvent) : Option Str :=
  firstTruthy [ev.timestamp, ev.block_time, ev.time, ev.completion_time]

/-- `Number(ev.height || ev.block_height || 0) || 0`. -/
def rawHeight (ev : RawEvent) : Int :=
  firstTruthyInt [ev.height, ev.block_height]

/-- `String(ev.delegator || ev.delegator_address || ev.address || '').toLowerCase()`. -/
def rawDelegator (ev : RawEvent) : Str :=
  lower ((firstTruthy [ev.delegator, ev.delegator_address, ev.address]).getD [])

/-- `String(ev.validator_addr || ev.validator || ev.validator_address || '')`. -/
def rawValidatorAddr (ev : RawEvent) : Str :=
  (firstTruthy [ev.validator_addr, ev.validator, ev.validator_address]).getD []

/-- `String(ev.validator_name || ev.validator_moniker || '')`. -/
def rawValidatorName (ev : RawEvent) : Str :=
  (firstTruthy [ev.validator_name, ev.validator_moniker]).getD []

/-- Amount validity test from `normalizeEvent`:
`!Number.isFinite(amountAtom) || amountAtom <= 0` means drop. -/
def validAmount (x : JSNum) : Bool := x.isFinite && !x.leZero

/-- `hashId(parts)`: the script takes the hex sha1 digest of the parts
joined by a pipe. The digest is a deterministic function of that joined
string and nothing in the scripts depends on any other property of it, so
it is modelled by the joined string itself. -/
def hashId (parts : List Str) : Str := List.intercalate (str "|") parts

/-- `new Date(x).toISOString()`. Every timestamp reaching the scripts is
already an ISO-8601 UTC string (the fetcher produces them with
`toISOString`), on which the round trip is the identity. -/
def toIso (s : Str) : Str := s

/-- `normalizeEvent(ev, source)` from `ingest-events-v2.mjs`; `nowIso` is
the script-global `new Date().toISOString()` captured at startup. -/
def normalizeEvent (ev : RawEvent) (source nowIso : Str) : Option Event :=
  match normalizeType (rawTypeField ev) with
  | none => none
  | some ty =>
    let txhash := rawTxhash ev
    let msgIndex := rawMsgIndex ev
    let eventIndex := rawEventIndex ev
    let amountAtom := rawAmount ev
    let timestamp := (rawTimestampField ev).map toIso
    let height := rawHeight ev
    let delegator := rawDelegator ev
    let validatorAddr := rawValidatorAddr ev
    if !validAmount amountAtom then none
    else if timestamp = none && height == 0 then none
    else some {
      id := hashId [str "cosmoshub-4", txhash, intStr msgIndex, intStr eventIndex,
        ty, delegator, validatorAddr, toFixed6 amountAtom, intStr height]
      chain_id := str "cosmoshub-4"
      source := source
      type := ty
      txhash := txhash
      msg_index := msgIndex
      event_index := eventIndex
      timestamp := timestamp
      height := height
      delegator := delegator
      validator_addr := validatorAddr
      validator_name := rawValidatorName ev
      amount_atom := amountAtom
      ingested_at := nowIso }

/-- UTC year-month of an ISO-8601 UTC string: its first 7 characters
(`getUTCFullYear` plus zero-padded `getUTCMonth + 1`). -/
def monthKey (s : Str) : Str := s.take 7

/-- `getPartitionKey(iso)`: year-month of `new Date(iso || nowIso)` —
a missing timestamp falls back to the script-global current time. -/
def getPartitionKey (iso : Option Str) (nowIso : Str) : Str :=
  monthKey (iso.getD nowIso)

/-- One provider fetch result (`runFetcherForProvider` / the
`Promise.allSettled` mapping in `main`). -/
structure ProviderRun where
  provider : Str
  rpc_base : Str
  ok : Bool
  error : Option Str
  events : List Event
deriving DecidableEq, Repr

/-- `providerRuns.filter((r) => r.ok)`. -/
def okRuns (runs : List ProviderRun) : List ProviderRun :=
  runs.filter (fun r => r.ok)

/-- `okRuns.length >= RPC_QUORUM_MIN ? RPC_QUORUM_MIN : Math.max(1, okRuns.length)`. -/
def dynamicQuorum (qmin okLen : Nat) : Nat :=
  if qmin ≤ okLen then qmin else max 1 okLen

/-- All normalized events of the ok providers, in iteration order. -/
def okEvents (oks : List ProviderRun) : List Event :=
  (oks.map (fun r => r.events)).flatten

/-- Keys of the `canonical` map in insertion order: each event id at its
first occurrence across the ok runs. -/
def candidateIds (oks : List ProviderRun) : List Str :=
  dedupKeepFirst ((okEvents oks).map (fun e => e.id))

/-- The canonical representative stored for an id: the first event carrying
it (`if (!canonical.has(e.id)) canonical.set(e.id, e)`). -/
def canonicalOf (oks : List ProviderRun) (id : Str) : Option Event :=
  (okEvents oks).find? (fun e => e.id == id)

/-- `evidence.get(id).size`: the number of distinct provider names among the
ok runs that reported an event with this id. -/
def supportersOf (oks : List ProviderRun) (id : Str) : Nat :=
  (dedupKeepFirst ((oks.filter (fun r => r.events.any (fun e => e.id == id))).map
    (fun r => r.provider))).length

/-- Ids accepted by the quorum loop (`supporters >= dynamicQuorum`),
in canonical-map iteration order. -/
def acceptedIds (oks : List ProviderRun) (dyn : Nat) : List Str :=
  (candidateIds oks).filter (fun id => dyn ≤ supportersOf oks id)

/-- `quorumEvents`: the canonical representative of every accepted id. -/
def quorumEvents (oks : List ProviderRun) (dyn : Nat) : List Event :=
  (acceptedIds oks dyn).filterMap (canonicalOf oks)

/-- `droppedByQuorum`: candidates whose supporter count is below quorum. -/
def droppedByQuorum (oks : List ProviderRun) (dyn : Nat) : Nat :=
  ((candidateIds oks).filter (fun id => !(dyn ≤ supportersOf oks id))).length

/-- The ledger directory: partition key (`YYYY-MM`) to the rows of
`events-YYYY-MM.jsonl`, in file order. -/
def Ledger := Str → List Event

/-- A ledger directory with no partition files yet. -/
def emptyLedger : Ledger := fun _ => []

/-- `[...new Set(quorumEvents.map((e) => getPartitionKey(e.timestamp)))]`. -/
def touchedPartitions (q : List Event) (nowIso : Str) : List Str :=
  dedupKeepFirst (q.map (fun e => getPartitionKey e.timestamp nowIso))

/-- `loadExistingIdsForPartitions`: ids of every row in the touched
partition files (the script collects them into one `Set`). -/
def loadExistingIds (l : Ledger) (parts : List Str) : List Str :=
  ((parts.map l).flatten).map (fun e => e.id)

/-- `String(a.timestamp)`: the sort key of the partition writer;
JS stringifies a null timestamp as the literal text `null`. -/
def tsKey (e : Event) : Str :=
  match e.timestamp with
  | some s => s
  | none => str "null"

/-- Ascending `localeCompare` on stringified timestamps
(`rows.sort((a, b) => String(a.timestamp).localeCompare(String(b.timestamp)))`). -/
def tsAscLe (a b : Event) : Bool := strLe (tsKey a) (tsKey b)

/-- The quorum events that survive the `existingIds.has(e.id)` skip. -/
def freshEvents (l : Ledger) (q : List Event) (nowIso : Str) : List Event :=
  q.filter (fun e => !((loadExistingIds l (touchedPartitions q nowIso)).contains e.id))

/-- `skippedExisting`: quorum events whose id is already present in a
touched partition. -/
def skippedExistingCount (l : Ledger) (q : List Event) (nowIso : Str) : Nat :=
  (q.filter (fun e => (loadExistingIds l (touchedPartitions q nowIso)).contains e.id)).length

/-- The rows appended to partition `p`: the fresh events keyed to `p`,
sorted ascending by stringified timestamp. -/
def appendForPartition (fresh : List Event) (nowIso p : Str) : List Event :=
  sortLe tsAscLe (fresh.filter (fun e => getPartitionKey e.timestamp nowIso == p))

/-- The ledger after the run: each partition file gets its sorted batch of
new rows appended (`fs.appendFile`); partitions with no new rows are
untouched (an empty batch appends nothing). -/
def writeRun (l : Ledger) (q : List Event) (nowIso : Str) : Ledger :=
  fun p => l p ++ appendForPartition (freshEvents l q nowIso) nowIso p

/-- `appended`: total number of rows written across the touched partitions. -/
def appendedCount (l : Ledger) (q : List Event) (nowIso : Str) : Nat :=
  ((touchedPartitions q nowIso).map
    (fun p => (appendForPartition (freshEvents l q nowIso) nowIso p).length)).sum

/-!
Embedding of the raw-archive writer of `scripts/fetch-delegation-feed.mjs`
(immutable mode, the default `RAW_IMMUTABLE=true`), which holds the
explicit shrink guard of the repository.
-/

/-- One item of `data/delegation-events-raw.json`. -/
structure RawItem where
  type : Str
  amount_atom : JSNum
  delegator : Str
  validator_addr : Str
  validator_name : Str
  height : Int
  txhash : Str
  timestamp : Option Str
deriving DecidableEq, Repr

/-- `makeEventId(item)` from `fetch-delegation-feed.mjs`: the stable join
key `txhash:type:delegator:validator_addr:atomKey:heightKey` where a falsy
amount is coerced to 0 first and a falsy height renders as the empty
string. -/
def makeEventId (i : RawItem) : Str :=
  let atom := if i.amount_atom.truthy then i.amount_atom else JSNum.fin 0 1
  let atomKey := if atom.isFinite then toFixed6 atom else str "0"
  let heightKey := if i.height == 0 then [] else intStr i.height
  List.intercalate (str ":")
    [i.txhash, i.type, i.delegator, i.validator_addr, atomKey, heightKey]

/-- Recency comparator of the raw archive
(`Date.parse(timestamp)` descending, then `height` descending; a missing
timestamp parses as the smallest value). -/
def rawRecencyLe (a b : RawItem) : Bool :=
  let ta := a.timestamp.getD []
  let tb := b.timestamp.getD []
  strLt tb ta || (ta == tb && b.height ≤ a.height)

/-- The raw-archive build of `fetch-delegation-feed.mjs` in immutable mode:
previous items plus the fresh items with unseen ids, sorted by recency;
`throw` on the shrink guard is `Except.error`, raised before any of the
output files is written. -/
def buildRawArchive (prev fresh : List RawItem) : Except Str (List RawItem) :=
  let prevIds := prev.map makeEventId
  let newItems := fresh.filter (fun i => !(prevIds.contains (makeEventId i)))
  let archive := sortLe rawRecencyLe (prev ++ newItems)
  if prev.length != 0 && decide (archive.length < prev.length) then
    Except.error (str "Raw ledger shrink blocked in immutable mode")
  else Except.ok archive

/-!
Embedding of `scripts/v2/reconcile-health-v2.mjs`.
-/

/-- The status values a single health check can take (`statusByFreshness`
yields ok/stale/missing, provider checks ok/degraded, the quorum check
ok/degraded/critical; the overall rollup yields ok/degraded/critical). -/
inductive CheckStatus where
  | ok
  | stale
  | missing
  | degraded
  | critical
deriving DecidableEq, Repr

/-- `statusByFreshness(mins, okMax)`: `missing` when the artifact has no
parseable freshness timestamp, `ok` within the budget, otherwise `stale`. -/
def statusByFreshness (mins : Option Int) (okMax : Int) : CheckStatus :=
  match mins with
  | none => .missing
  | some m => if m ≤ okMax then .ok else .stale

/-- The provider/quorum classifier of `reconcile-health-v2.mjs`. -/
def quorumCheckStatus (providerSuccess activeRequired : Nat) : CheckStatus :=
  if providerSuccess = 0 then .critical
  else if providerSuccess < activeRequired then .degraded
  else .ok

/-- The overall rollup: `degradedCount === 0 ? 'ok' : degradedCount <= 2 ?
'degraded' : 'critical'` over every entry of the `checks` map. -/
def overallStatus (checks : List CheckStatus) : CheckStatus :=
  let degradedCount := (checks.filter (fun c => c != CheckStatus.ok)).length
  if degradedCount = 0 then .ok
  else if degradedCount ≤ 2 then .degraded
  else .critical

/-!
Embedding of `scripts/v2/rebuild-derived-v2.mjs` (src/unnamed/part_001):
the hourly/daily net-flow aggregation over the ledger.
-/

/-- One time bucket of the hourly/daily aggregates. -/
structure Bucket where
  key : Str
  delegate_atom : JSNum
  undelegate_atom : JSNum
  net_atom : JSNum
  delegates_count : Nat
  undelegates_count : Nat
  total_count : Nat
deriving DecidableEq, Repr

/-- The zero bucket created on first sight of a key. -/
def newBucket (k : Str) : Bucket :=
  { key := k, delegate_atom := JSNum.fin 0 1, undelegate_atom := JSNum.fin 0 1,
    net_atom := JSNum.fin 0 1, delegates_count := 0, undelegates_count := 0,
    total_count := 0 }

/-- The per-type accumulation of one event into its bucket
(unknown types only bump `total_count`, as in the source). -/
def bucketAdd (b : Bucket) (ty : Str) (amt : JSNum) : Bucket :=
  let b1 :=
    if ty == str "delegate" then
      { b with delegate_atom := b.delegate_atom.add amt,
               delegates_count := b.delegates_count + 1,
               net_atom := b.net_atom.add amt }
    else if ty == str "undelegate" then
      { b with undelegate_atom := b.undelegate_atom.add amt,
               undelegates_count := b.undelegates_count + 1,
               net_atom := b.net_atom.sub amt }
    else b
  { b1 with total_count := b1.total_count + 1 }

/-- One loop iteration of `aggregateByTime` over the insertion-ordered
bucket map; a bucket is created before the amount validity check, exactly
as in the source. -/
def aggStep (keyFn : Str → Str) (cutoff : Option Str)
    (acc : List Bucket) (e : Event) : List Bucket :=
  match e.timestamp with
  | none => acc
  | some ts =>
    if cutoff.any (fun c => strLt ts c) then acc
    else
      let key := keyFn ts
      let acc1 := if acc.any (fun b => b.key == key) then acc
                  else acc ++ [newBucket key]
      let amt := if e.amount_atom.truthy then e.amount_atom else JSNum.fin 0 1
      if !amt.isFinite || amt.leZero then acc1
      else acc1.map (fun b => if b.key == key then bucketAdd b e.type amt else b)

/-- Ascending bucket-key comparator
(`sort((a, b) => String(a.key).localeCompare(String(b.key)))`). -/
def bucketKeyLe (a b : Bucket) : Bool := strLe a.key b.key

/-- `aggregateByTime(items, keyFn, includeWindowDays)`: fold the items into
insertion-ordered buckets, then sort the buckets by key. `cutoff` is the
window cutoff instant as an ISO string (`none` when no window is set). -/
def aggregateByTime (items : List Event) (keyFn : Str → Str)
    (cutoff : Option Str) : List Bucket :=
  sortLe bucketKeyLe (items.foldl (aggStep keyFn cutoff) [])

/-- `toIsoHour`: the ISO string with minutes, seconds and milliseconds
zeroed — its first 13 characters (`YYYY-MM-DDTHH`) plus `:00:00.000Z`. -/
def isoHourKey (ts : Str) : Str := ts.take 13 ++ str ":00:00.000Z"

/-- `toIsoDay`: the first 10 characters of the ISO string (`YYYY-MM-DD`). -/
def isoDayKey (ts : Str) : Str := ts.take 10

/-- One `dedup.set(row.id, row)` step of `loadLedgerEvents`: a known id has
its stored row replaced in place, a new id is appended. -/
def mapSetById (acc : List Event) (e : Event) : List Event :=
  if acc.any (fun x => x.id == e.id) then
    acc.map (fun x => if x.id == e.id then e else x)
  else acc ++ [e]

/-- `loadLedgerEvents`: every row of every partition file in name order,
deduplicated by id with last-row-wins map semantics. -/
def loadLedgerEvents (files : List (List Event)) : List Event :=
  files.flatten.foldl mapSetById []

/-- Recency comparator of the rebuild script: `Date.parse` descending with
missing timestamps parsing as the smallest value, ties by height
descending. -/
def eventRecencyLe (a b : Event) : Bool :=
  let ta := a.timestamp.getD []
  let tb := b.timestamp.getD []
  strLt tb ta || (ta == tb && b.height ≤ a.height)

/-- The hourly and daily net-flow aggregates produced by one run of
`rebuild-derived-v2.mjs` as a function of the ledger files and of the two
wall-clock cutoffs derived from `Date.now()` (`RAW_KEEP_DAYS` and
`HOURLY_KEEP_DAYS` back). The rebuild only reads the ledger; it never
writes it, so the ledger passed to a re-run is unchanged. -/
def rebuildAggregates (files : List (List Event)) (rawCutoff hourlyCutoff : Str) :
    List Bucket × List Bucket :=
  let events0 := loadLedgerEvents files
  let events1 := events0.filter (fun e =>
    match e.timestamp with
    | none => true
    | some t => strLe rawCutoff t)
  let events := sortLe eventRecencyLe events1
  (aggregateByTime events isoHourKey (some hourlyCutoff),
   aggregateByTime events isoDayKey none)

/-!
Embedding of the provider-collection and exit path of
`ingest-events-v2.mjs` `main`.
-/

/-- `new URL(url).hostname`, modelled for the bare-host endpoint URLs in
scope by stripping the scheme (the catch branch of `providerName` does
exactly this for any input). -/
def providerName (url : Str) : Str :=
  if (str "https://").isPrefixOf url then url.drop 8
  else if (str "http://").isPrefixOf url then url.drop 7
  else url

/-- The settlement state of one provider task as seen by
`Promise.allSettled`. -/
inductive SettledRun where
  | fulfilled (r : ProviderRun)
  | rejected (reason : Str)
deriving DecidableEq, Repr

/-- The per-provider mapping of `main`: a fulfilled task is taken as is, a
rejected one becomes an absorbed `{ok: false, error, events: []}` record. -/
def settleRun (rpcBase : Str) : SettledRun → ProviderRun
  | .fulfilled r => r
  | .rejected reason =>
    { provider := providerName rpcBase, rpc_base := rpcBase, ok := false,
      error := some reason, events := [] }

/-- What `main` reports at completion. `exitCode` is 0 because `main`
reaches its final `console.log` on every input of this stage: provider
failures were already absorbed into `{ok: false}` records by
`Promise.allSettled`, so the `main().catch(... process.exit(1))` handler
is only reachable through an fs-level exception, not through provider
failures. `status` is the `sourceStatus.status` field. -/
structure MainOutcome where
  exitCode : Nat
  status : Str
  providerStats : List (Str × Bool × Option Str × Nat)
deriving DecidableEq, Repr

/-- The completion record of `main` as a function of the settled provider
runs and the configured quorum minimum. -/
def ingestOutcome (runs : List ProviderRun) (qmin : Nat) : MainOutcome :=
  let oks := okRuns runs
  let dyn := dynamicQuorum qmin oks.length
  { exitCode := 0
    status :=
      if dyn ≤ oks.length then str "ok"
      else if 0 < oks.length then str "degraded"
      else str "critical"
    providerStats := runs.map (fun r => (r.provider, r.ok, r.error, r.events.length)) }

/-!
Claim theorems.
-/

/-- C6: the Health Reconciler's overall status is a pure discrete rollup of
the individual check results: `ok` when zero checks fail, `degraded` when 1
or 2 checks are not `ok`, `critical` when 3 or more are not `ok`; with 5
checks, 1 stale yields `degraded` and 4 stale/missing yield `critical`. -/
theorem health_rollup_thresholds (checks : List CheckStatus) :
    (overallStatus checks = CheckStatus.ok ↔
      (checks.filter (fun c => c != CheckStatus.ok)).length = 0)
    ∧ (overallStatus checks = CheckStatus.degraded ↔
      (1 ≤ (checks.filter (fun c => c != CheckStatus.ok)).length
        ∧ (checks.filter (fun c => c != CheckStatus.ok)).length ≤ 2))
    ∧ (overallStatus checks = CheckStatus.critical ↔
      3 ≤ (checks.filter (fun c => c != CheckStatus.ok)).length)
    ∧ overallStatus [CheckStatus.ok, CheckStatus.ok, CheckStatus.ok,
        CheckStatus.ok, CheckStatus.stale] = CheckStatus.degraded
    ∧ overallStatus [CheckStatus.stale, CheckStatus.missing, CheckStatus.stale,
        CheckStatus.missing, CheckStatus.ok] = CheckStatus.critical := by
  refine ⟨?_, ?_, ?_, by decide, by decide⟩ <;>
    simp only [overallStatus] <;>
      by_cases h0 : (checks.filter (fun c => c != CheckStatus.ok)).length = 0 <;>
        by_cases h2 : (checks.filter (fun c => c != CheckStatus.ok)).length ≤ 2 <;>
          simp [h0, h2] <;> omega

/-- C6 witness: the rollup law instantiated at a concrete check list. -/
theorem health_rollup_thresholds_witness :
    (overallStatus [CheckStatus.ok, CheckStatus.stale] = CheckStatus.ok ↔
      ([CheckStatus.ok, CheckStatus.stale].filter
        (fun c => c != CheckStatus.ok)).length = 0)
    ∧ (overallStatus [CheckStatus.ok, CheckStatus.stale] = CheckStatus.degraded ↔
      (1 ≤ ([CheckStatus.ok, CheckStatus.stale].filter
            (fun c => c != CheckStatus.ok)).length
        ∧ ([CheckStatus.ok, CheckStatus.stale].filter
            (fun c => c != CheckStatus.ok)).length ≤ 2))
    ∧ (overallStatus [CheckStatus.ok, CheckStatus.stale] = CheckStatus.critical ↔
      3 ≤ ([CheckStatus.ok, CheckStatus.stale].filter
            (fun c => c != CheckStatus.ok)).length)
    ∧ overallStatus [CheckStatus.ok, CheckStatus.ok, CheckStatus.ok,
        CheckStatus.ok, CheckStatus.stale] = CheckStatus.degraded
    ∧ overallStatus [CheckStatus.stale, CheckStatus.missing, CheckStatus.stale,
        CheckStatus.missing, CheckStatus.ok] = CheckStatus.critical :=
  health_rollup_thresholds [CheckStatus.ok, CheckStatus.stale]

/-- A canonical representative exists for every candidate id. -/
theorem canonicalOf_isSome_of_candidate (oks : List ProviderRun) (id : Str)
    (h : id ∈ candidateIds oks) : (canonicalOf oks id).isSome := by
  rw [candidateIds, mem_dedupKeepFirst, List.mem_map] at h
  rcases h with ⟨e, he, rfl⟩
  rw [canonicalOf, List.find?_isSome]
  exact ⟨e, he, by simp⟩

/-- C1: an event id is accepted by the quorum stage iff its distinct
ok-provider supporter count reaches `min(configured_minimum,
providers_ok)` floored at 1, and every candidate id splits exactly into
accepted ids plus ids counted in `dropped_by_quorum`. -/
theorem quorum_acceptance (runs : List ProviderRun) (qmin : Nat) (hq : 1 ≤ qmin) :
    dynamicQuorum qmin (okRuns runs).length
        = max 1 (min qmin (okRuns runs).length)
    ∧ (∀ id ∈ candidateIds (okRuns runs),
        (id ∈ acceptedIds (okRuns runs) (dynamicQuorum qmin (okRuns runs).length) ↔
          max 1 (min qmin (okRuns runs).length) ≤ supportersOf (okRuns runs) id))
    ∧ (quorumEvents (okRuns runs) (dynamicQuorum qmin (okRuns runs).length)).length
        + droppedByQuorum (okRuns runs) (dynamicQuorum qmin (okRuns runs).length)
        = (candidateIds (okRuns runs)).length := by
  have hdyn : dynamicQuorum qmin (okRuns runs).length
      = max 1 (min qmin (okRuns runs).length) := by
    rw [dynamicQuorum]
    split <;> omega
  refine ⟨hdyn, ?_, ?_⟩
  · intro id hid
    rw [acceptedIds, List.mem_filter, hdyn]
    simp [hid]
  · rw [quorumEvents, acceptedIds, droppedByQuorum]
    rw [length_filterMap_of_isSome _ _
        (fun id hid => canonicalOf_isSome_of_candidate (okRuns runs) id
          (List.mem_of_mem_filter hid))]
    exact length_filter_add_length_filter_not _ _

/-- An event literal used by the concrete instantiations below. -/
def mkEventTs (id ts : String) : Event :=
  { id := str id, chain_id := str "cosmoshub-4", source := str "p",
    type := str "delegate", txhash := str "AB12", msg_index := 0,
    event_index := 0, timestamp := some (str ts), height := 100,
    delegator := str "cosmos1d", validator_addr := str "cosmosvaloper1v",
    validator_name := [], amount_atom := JSNum.fin 5 1,
    ingested_at := str "2024-02-15T12:00:00.000Z" }

/-- An event literal with a fixed timestamp. -/
def mkEvent (id : String) : Event := mkEventTs id "2024-02-10T00:00:00.000Z"

/-- Concrete ingestion run: two healthy providers (one id seen by both,
one id seen by one) and one failed provider. -/
def demoRuns : List ProviderRun :=
  [ { provider := str "a", rpc_base := str "https://a", ok := true,
      error := none, events := [mkEvent "e1", mkEvent "e2"] },
    { provider := str "b", rpc_base := str "https://b", ok := true,
      error := none, events := [mkEvent "e1"] },
    { provider := str "c", rpc_base := str "https://c", ok := false,
      error := some (str "timeout"), events := [] } ]

/-- C1 witness: the quorum law at the concrete run with `RPC_QUORUM_MIN = 2`. -/
theorem quorum_acceptance_witness :
    1 ≤ 2
    ∧ (dynamicQuorum 2 (okRuns demoRuns).length
          = max 1 (min 2 (okRuns demoRuns).length)
      ∧ (∀ id ∈ candidateIds (okRuns demoRuns),
          (id ∈ acceptedIds (okRuns demoRuns) (dynamicQuorum 2 (okRuns demoRuns).length) ↔
            max 1 (min 2 (okRuns demoRuns).length) ≤ supportersOf (okRuns demoRuns) id))
      ∧ (quorumEvents (okRuns demoRuns) (dynamicQuorum 2 (okRuns demoRuns).length)).length
          + droppedByQuorum (okRuns demoRuns) (dynamicQuorum 2 (okRuns demoRuns).length)
          = (candidateIds (okRuns demoRuns)).length) :=
  ⟨by omega, quorum_acceptance demoRuns 2 (by omega)⟩

/-- Membership of an id among the rows loaded from partition files. -/
theorem mem_loadExistingIds (l : Ledger) (parts : List Str) (i : Str) :
    i ∈ loadExistingIds l parts ↔ ∃ p ∈ parts, ∃ e ∈ l p, e.id = i := by
  rw [loadExistingIds]
  simp only [List.mem_map, List.mem_flatten]
  constructor
  · rintro ⟨e, ⟨rows, ⟨p, hp, rfl⟩, hrow⟩, rfl⟩
    exact ⟨p, hp, e, hrow, rfl⟩
  · rintro ⟨p, hp, e, hrow, rfl⟩
    exact ⟨e, ⟨l p, ⟨p, hp, rfl⟩, hrow⟩, rfl⟩

/-- After a run, the id of every quorum event is present in the touched
partition files: it was either there before or appended this run. -/
theorem id_present_after_writeRun (l : Ledger) (q : List Event) (nowIso : Str)
    (e : Event) (he : e ∈ q) :
    e.id ∈ loadExistingIds (writeRun l q nowIso) (touchedPartitions q nowIso) := by
  rw [mem_loadExistingIds]
  by_cases hex : e.id ∈ loadExistingIds l (touchedPartitions q nowIso)
  · rw [mem_loadExistingIds] at hex
    rcases hex with ⟨p, hp, row, hrow, hid⟩
    exact ⟨p, hp, row, by rw [writeRun]; exact List.mem_append_left _ hrow, hid⟩
  · refine ⟨getPartitionKey e.timestamp nowIso, ?_, e, ?_, rfl⟩
    · rw [touchedPartitions, mem_dedupKeepFirst, List.mem_map]
      exact ⟨e, he, rfl⟩
    · rw [writeRun]
      refine List.mem_append_right _ ?_
      rw [appendForPartition, mem_sortLe, List.mem_filter]
      refine ⟨?_, by simp⟩
      rw [freshEvents, List.mem_filter]
      refine ⟨he, ?_⟩
      simpa [List.elem_iff] using hex

/-- C4: ingestion is idempotent — a second run over the same quorum events
with the same run month finds every id already present, skips all of them
(`skipped_existing = |q|`), appends zero rows and leaves the ledger
unchanged. -/
theorem ingest_idempotent (l : Ledger) (q : List Event) (nowIso : Str) :
    freshEvents (writeRun l q nowIso) q nowIso = []
    ∧ appendedCount (writeRun l q nowIso) q nowIso = 0
    ∧ skippedExistingCount (writeRun l q nowIso) q nowIso = q.length
    ∧ writeRun (writeRun l q nowIso) q nowIso = writeRun l q nowIso := by
  have hall : ∀ e ∈ q,
      (loadExistingIds (writeRun l q nowIso) (touchedPartitions q nowIso)).contains e.id
        = true := by
    intro e he
    simpa [List.elem_iff] using id_present_after_writeRun l q nowIso e he
  have hfresh : freshEvents (writeRun l q nowIso) q nowIso = [] := by
    rw [freshEvents, List.filter_eq_nil_iff]
    intro e he
    simp [id_present_after_writeRun l q nowIso e he]
  refine ⟨hfresh, ?_, ?_, ?_⟩
  · rw [appendedCount, hfresh]
    refine List.sum_eq_zero ?_
    intro x hx
    rcases List.mem_map.mp hx with ⟨p, _, rfl⟩
    simp [appendForPartition, sortLe]
  · rw [skippedExistingCount]
    rw [List.filter_eq_self.mpr (fun e he => hall e he)]
  · funext p
    show writeRun l q nowIso p
        ++ appendForPartition (freshEvents (writeRun l q nowIso) q nowIso) nowIso p
      = writeRun l q nowIso p
    rw [hfresh]
    simp [appendForPartition, sortLe]

/-- C2: no run can shrink a ledger partition — the partition writer only
appends, so every partition's row count is monotonically non-decreasing;
and the explicit shrink guard of the raw-archive writer (immutable mode)
never fires: the archive it builds is previous-items-plus-new and is
checked against the previous length before any file write, so a would-be
shrink would abort the run with nothing written. -/
theorem ledger_no_shrink (l : Ledger) (q : List Event) (nowIso : Str)
    (prev fresh : List RawItem) :
    (∀ p, (l p).length ≤ (writeRun l q nowIso p).length)
    ∧ ∃ archive, buildRawArchive prev fresh = Except.ok archive
        ∧ prev.length ≤ archive.length := by
  constructor
  · intro p
    rw [writeRun, List.length_append]
    omega
  · refine ⟨sortLe rawRecencyLe
      (prev ++ fresh.filter (fun i => !((prev.map makeEventId).contains (makeEventId i)))), ?_, ?_⟩
    · rw [buildRawArchive]
      have hlen : (sortLe rawRecencyLe
          (prev ++ fresh.filter
            (fun i => !((prev.map makeEventId).contains (makeEventId i))))).length
          = prev.length + (fresh.filter
            (fun i => !((prev.map makeEventId).contains (makeEventId i)))).length := by
        rw [length_sortLe, List.length_append]
      simp only [hlen]
      have : ¬ (prev.length + (fresh.filter
          (fun i => !((prev.map makeEventId).contains (makeEventId i)))).length
            < prev.length) := by omega
      simp [this]
    · rw [length_sortLe, List.length_append]
      omega

/-- C2 witness: the no-shrink law at a concrete ledger, run and archive. -/
theorem ledger_no_shrink_witness :
    (∀ p, (emptyLedger p).length
        ≤ (writeRun emptyLedger [mkEvent "e1"] (str "2024-02-15T12:00:00.000Z") p).length)
    ∧ ∃ archive, buildRawArchive [] [] = Except.ok archive
        ∧ List.length ([] : List RawItem) ≤ archive.length :=
  ledger_no_shrink emptyLedger [mkEvent "e1"] (str "2024-02-15T12:00:00.000Z") [] []

/-- C5 counterexample: two consecutive runs over the same partition month —
the first appends a row with a later timestamp, the second a late-arriving
row with an earlier timestamp — leave the partition file out of ascending
timestamp order, refuting ordering of the whole file across runs. -/
theorem partition_file_order_counterexample :
    ¬ List.Pairwise (fun a b => tsAscLe a b = true)
      (writeRun
        (writeRun emptyLedger [mkEventTs "late" "2024-02-20T00:00:00.000Z"]
          (str "2024-02-25T00:00:00.000Z"))
        [mkEventTs "early" "2024-02-10T00:00:00.000Z"]
        (str "2024-02-25T00:00:00.000Z")
        (str "2024-02")) := by
  decide

/-- C5 amended: within one run the batch appended to a partition is sorted
ascending by stringified timestamp, and previously written rows are never
reordered or rewritten — the new file content is exactly the old content
with the sorted batch appended; ascending order of the file as a whole
across runs does not hold (see the counterexample). -/
theorem partition_append_only_sorted_batch (l : Ledger) (q : List Event)
    (nowIso p : Str) :
    writeRun l q nowIso p
      = l p ++ appendForPartition (freshEvents l q nowIso) nowIso p
    ∧ List.Pairwise (fun a b => tsAscLe a b = true)
        (appendForPartition (freshEvents l q nowIso) nowIso p) := by
  refine ⟨rfl, ?_⟩
  rw [appendForPartition]
  exact pairwise_sortLe tsAscLe
    (fun a b c hab hbc => strLe_trans _ _ _ hab hbc)
    (fun a b => strLe_total _ _) _

/-- C7 counterexample: a record whose type resolves to neither delegate nor
undelegate is dropped by `normalizeEvent` even though its amount is finite
and positive and its timestamp is resolvable — so the claimed drop
conditions (amount invalid, or neither timestamp nor height) are not
exhaustive. -/
def unknownTypeRecord : RawEvent :=
  { type := some (str "transfer"),
    amount := some (JSNum.fin 5 1),
    timestamp := some (str "2024-02-10T00:00:00.000Z") }

/-- C7 counterexample theorem: the record above is dropped although every
drop condition named by the claim is false. -/
theorem normalize_drop_counterexample :
    normalizeEvent unknownTypeRecord (str "p") (str "2024-02-15T12:00:00.000Z") = none
    ∧ validAmount (rawAmount unknownTypeRecord) = true
    ∧ (rawTimestampField unknownTypeRecord).isSome = true := by
  decide

/-- C7 amended: `normalizeEvent` drops a record — returning `none`, a total
function, never an exception — exactly when its type resolves to neither
delegate nor undelegate, or its amount is non-finite or ≤ 0, or neither a
timestamp nor a non-zero height is resolvable from the alias fields. -/
theorem normalize_drop_characterization (ev : RawEvent) (source nowIso : Str) :
    normalizeEvent ev source nowIso = none ↔
      (normalizeType (rawTypeField ev) = none
        ∨ validAmount (rawAmount ev) = false
        ∨ (rawTimestampField ev = none ∧ rawHeight ev = 0)) := by
  rw [normalizeEvent]
  cases h : normalizeType (rawTypeField ev) with
  | none => simp [h]
  | some ty =>
    simp only [h]
    by_cases hv : validAmount (rawAmount ev)
    · simp only [hv, Bool.not_true, Bool.false_eq_true, if_false]
      by_cases hts : rawTimestampField ev = none
      · by_cases hh : rawHeight ev = 0
        · simp [hts, hh, toIso]
        · simp [hts, hh, toIso]
      · cases hrt : rawTimestampField ev with
        | none => exact absurd hrt hts
        | some t => simp [hrt, toIso, hv]
    · have hv' : validAmount (rawAmount ev) = false := by simpa using hv
      simp [hv']

/-- C7 amended witness: the characterization at a concrete record. -/
theorem normalize_drop_characterization_witness :
    normalizeEvent unknownTypeRecord (str "p") (str "2024-02-15T12:00:00.000Z") = none ↔
      (normalizeType (rawTypeField unknownTypeRecord) = none
        ∨ validAmount (rawAmount unknownTypeRecord) = false
        ∨ (rawTimestampField unknownTypeRecord = none
            ∧ rawHeight unknownTypeRecord = 0)) :=
  normalize_drop_characterization unknownTypeRecord (str "p")
    (str "2024-02-15T12:00:00.000Z")

/-- C10: an accepted event with no timestamp necessarily carries a non-zero
height, and its partition key is the run's current UTC year-month — it is
partitioned by ingestion time, not by any month derived from the event. -/
theorem height_only_partition (ev : RawEvent) (source nowIso : Str) (e : Event)
    (h : normalizeEvent ev source nowIso = some e) (ht : e.timestamp = none) :
    e.height ≠ 0 ∧ getPartitionKey e.timestamp nowIso = monthKey nowIso := by
  refine ⟨?_, by rw [ht]; rfl⟩
  rw [normalizeEvent] at h
  cases htp : normalizeType (rawTypeField ev) with
  | none =>
    rw [htp] at h
    exact absurd h (by simp)
  | some ty =>
    rw [htp] at h
    simp only at h
    split at h
    · exact absurd h (by simp)
    · split at h
      · exact absurd h (by simp)
      · rename_i hguard
        have he := Option.some.inj h
        have hh : e.height = rawHeight ev := by rw [← he]
        have hts : e.timestamp = (rawTimestampField ev).map toIso := by rw [← he]
        rw [ht] at hts
        intro h0
        apply hguard
        rw [← hts, ht, hh] at *
        simp [ht.symm.trans hts |>.symm, h0, hts.symm]

/-- The accepted-record shape of `normalizeEvent`: when the type resolves,
the amount is valid and a timestamp or non-zero height exists, the record
is kept with the deterministic id of the normalized tuple. -/
theorem normalizeEvent_accepts (ev : RawEvent) (s nowIso ty : Str)
    (h : normalizeType (rawTypeField ev) = some ty)
    (hv : validAmount (rawAmount ev) = true)
    (ht : rawTimestampField ev ≠ none ∨ rawHeight ev ≠ 0) :
    normalizeEvent ev s nowIso = some
      { id := hashId [str "cosmoshub-4", rawTxhash ev, intStr (rawMsgIndex ev),
          intStr (rawEventIndex ev), ty, rawDelegator ev, rawValidatorAddr ev,
          toFixed6 (rawAmount ev), intStr (rawHeight ev)],
        chain_id := str "cosmoshub-4", source := s, type := ty,
        txhash := rawTxhash ev, msg_index := rawMsgIndex ev,
        event_index := rawEventIndex ev,
        timestamp := (rawTimestampField ev).map toIso,
        height := rawHeight ev, delegator := rawDelegator ev,
        validator_addr := rawValidatorAddr ev,
        validator_name := rawValidatorName ev,
        amount_atom := rawAmount ev, ingested_at := nowIso } := by
  have h2 : (decide ((rawTimestampField ev).map toIso = none)
      && (rawHeight ev == 0)) = false := by
    rcases ht with ht | ht
    · cases hrt : rawTimestampField ev with
      | none => exact absurd hrt ht
      | some t => simp [hrt, toIso]
    · simp [ht]
  rw [normalizeEvent, h]
  simp only [hv, Bool.not_true, Bool.false_eq_true, if_false, h2]

/-- C3: the event id is a pure function of (chain id, uppercased tx hash,
message index, event index, type, lowercased delegator, validator address,
amount fixed to 6 decimals, height): two raw records agreeing on that
normalized tuple — so records differing only in address casing, hash
casing, or rounding noise absorbed by `toFixed(6)` — normalize to events
with the same id, whatever their provider or record shape. -/
theorem event_id_convergence (e1 e2 : RawEvent) (s1 s2 now1 now2 : Str)
    (hty : normalizeType (rawTypeField e1) = normalizeType (rawTypeField e2))
    (htys : (normalizeType (rawTypeField e1)).isSome)
    (hh : rawTxhash e1 = rawTxhash e2)
    (hm : rawMsgIndex e1 = rawMsgIndex e2)
    (hei : rawEventIndex e1 = rawEventIndex e2)
    (hd : rawDelegator e1 = rawDelegator e2)
    (hva : rawValidatorAddr e1 = rawValidatorAddr e2)
    (ha : toFixed6 (rawAmount e1) = toFixed6 (rawAmount e2))
    (hht : rawHeight e1 = rawHeight e2)
    (ha1 : validAmount (rawAmount e1) = true)
    (ha2 : validAmount (rawAmount e2) = true)
    (ht1 : rawTimestampField e1 ≠ none ∨ rawHeight e1 ≠ 0)
    (ht2 : rawTimestampField e2 ≠ none ∨ rawHeight e2 ≠ 0) :
    ∃ v1 v2, normalizeEvent e1 s1 now1 = some v1
      ∧ normalizeEvent e2 s2 now2 = some v2 ∧ v1.id = v2.id := by
  rcases Option.isSome_iff_exists.mp htys with ⟨ty, hty1⟩
  have hty2 : normalizeType (rawTypeField e2) = some ty := hty.symm.trans hty1
  refine ⟨_, _, normalizeEvent_accepts e1 s1 now1 ty hty1 ha1 ht1,
    normalizeEvent_accepts e2 s2 now2 ty hty2 ha2 ht2, ?_⟩
  show hashId _ = hashId _
  rw [hh, hm, hei, hd, hva, ha, hht]

/-- First record of the C3 witness pair: lowercase hash, mixed-case
delegator, amount `12.3456789`, timestamp present. -/
def rawDupA : RawEvent :=
  { type := some (str "MsgDelegate"),
    txhash := some (str "ab12cd"),
    amount := some (JSNum.fin 123456789 10000000),
    timestamp := some (str "2024-02-10T00:00:00.000Z"),
    height := some 77,
    delegator := some (str "Cosmos1XYZ"),
    validator_addr := some (str "cosmosvaloper1v") }

/-- Second record of the C3 witness pair: same real event reported with
uppercase hash, lowercase delegator, amount `12.3456785` (rounding noise
absorbed by `toFixed(6)`), no timestamp but the same height, under other
alias fields. -/
def rawDupB : RawEvent :=
  { action := some (str "delegate"),
    tx_hash := some (str "AB12CD"),
    amount_atom := some (JSNum.fin 123456785 10000000),
    height := some 77,
    address := some (str "cosmos1xyz"),
    validator := some (str "cosmosvaloper1v") }

/-- C3 witness: the convergence law at the concrete record pair. -/
theorem event_id_convergence_witness :
    (normalizeType (rawTypeField rawDupA) = normalizeType (rawTypeField rawDupB)
      ∧ (normalizeType (rawTypeField rawDupA)).isSome
      ∧ rawTxhash rawDupA = rawTxhash rawDupB
      ∧ rawMsgIndex rawDupA = rawMsgIndex rawDupB
      ∧ rawEventIndex rawDupA = rawEventIndex rawDupB
      ∧ rawDelegator rawDupA = rawDelegator rawDupB
      ∧ rawValidatorAddr rawDupA = rawValidatorAddr rawDupB
      ∧ toFixed6 (rawAmount rawDupA) = toFixed6 (rawAmount rawDupB)
      ∧ rawHeight rawDupA = rawHeight rawDupB
      ∧ validAmount (rawAmount rawDupA) = true
      ∧ validAmount (rawAmount rawDupB) = true)
    ∧ (∃ v1 v2, normalizeEvent rawDupA (str "providerA") (str "2024-02-15T12:00:00.000Z") = some v1
        ∧ normalizeEvent rawDupB (str "providerB") (str "2024-02-15T12:05:00.000Z") = some v2
        ∧ v1.id = v2.id) :=
  ⟨⟨by decide, by decide, by decide, by decide, by decide, by decide, by decide,
    by decide, by decide, by decide, by decide⟩,
    event_id_convergence rawDupA rawDupB
      (str "providerA") (str "providerB")
      (str "2024-02-15T12:00:00.000Z") (str "2024-02-15T12:05:00.000Z")
      (by decide) (by decide) (by decide) (by decide) (by decide) (by decide)
      (by decide) (by decide) (by decide) (by decide) (by decide)
      (Or.inl (by decide)) (Or.inr (by decide))⟩

/-- C8 counterexample: a run in which every provider fetch fails — two
rejected tasks and one fulfilled-but-failed fetch — still completes `main`
normally: the process exit code is 0, not non-zero as claimed; the total
failure is only recorded as status `critical`. -/
theorem ingest_exit_counterexample :
    okRuns
        [settleRun (str "https://a") (SettledRun.rejected (str "timeout")),
         settleRun (str "https://b") (SettledRun.rejected (str "HTTP 502")),
         settleRun (str "https://c")
           (SettledRun.fulfilled
             { provider := str "c", rpc_base := str "https://c", ok := false,
               error := some (str "exit 1"), events := [] })] = []
    ∧ (ingestOutcome
        [settleRun (str "https://a") (SettledRun.rejected (str "timeout")),
         settleRun (str "https://b") (SettledRun.rejected (str "HTTP 502")),
         settleRun (str "https://c")
           (SettledRun.fulfilled
             { provider := str "c", rpc_base := str "https://c", ok := false,
               error := some (str "exit 1"), events := [] })] 2).exitCode = 0 := by
  decide

/-- C8 amended: the ingest run always completes with exit code 0 at this
stage — individual provider failures, including rejected tasks, are
absorbed as `{ok: false, error}` records and never fail the run; when no
provider succeeds the run still exits 0 and records overall source status
`critical` (a non-zero exit arises only from an unexpected exception, not
from provider failures). -/
theorem ingest_exit_absorption (settled : List (Str × SettledRun)) (qmin : Nat)
    (hq : 1 ≤ qmin) :
    (ingestOutcome (settled.map (fun bs => settleRun bs.1 bs.2)) qmin).exitCode = 0
    ∧ ((okRuns (settled.map (fun bs => settleRun bs.1 bs.2))).length = 0 →
        (ingestOutcome (settled.map (fun bs => settleRun bs.1 bs.2)) qmin).status
          = str "critical")
    ∧ (∀ b reason, settleRun b (SettledRun.rejected reason)
        = { provider := providerName b, rpc_base := b, ok := false,
            error := some reason, events := [] }) := by
  refine ⟨rfl, ?_, fun b reason => rfl⟩
  intro h0
  show (if dynamicQuorum qmin (okRuns (settled.map (fun bs => settleRun bs.1 bs.2))).length
        ≤ (okRuns (settled.map (fun bs => settleRun bs.1 bs.2))).length
      then str "ok"
      else if 0 < (okRuns (settled.map (fun bs => settleRun bs.1 bs.2))).length
      then str "degraded" else str "critical") = str "critical"
  rw [h0, dynamicQuorum]
  have hcond : ¬ ((if qmin ≤ 0 then qmin else max 1 0) ≤ 0) := by
    split <;> omega
  rw [if_neg hcond, if_neg (by omega)]

/-- C8 amended witness: the absorption law at the all-failed run. -/
theorem ingest_exit_absorption_witness :
    1 ≤ 2
    ∧ (ingestOutcome
        ([(str "https://a", SettledRun.rejected (str "timeout")),
          (str "https://b", SettledRun.rejected (str "HTTP 502"))].map
          (fun bs => settleRun bs.1 bs.2)) 2).exitCode = 0
    ∧ ((okRuns
        ([(str "https://a", SettledRun.rejected (str "timeout")),
          (str "https://b", SettledRun.rejected (str "HTTP 502"))].map
          (fun bs => settleRun bs.1 bs.2))).length = 0 →
        (ingestOutcome
          ([(str "https://a", SettledRun.rejected (str "timeout")),
            (str "https://b", SettledRun.rejected (str "HTTP 502"))].map
            (fun bs => settleRun bs.1 bs.2)) 2).status = str "critical")
    ∧ (∀ b reason, settleRun b (SettledRun.rejected reason)
        = { provider := providerName b, rpc_base := b, ok := false,
            error := some reason, events := [] }) :=
  ⟨by omega,
    ingest_exit_absorption
      [(str "https://a", SettledRun.rejected (str "timeout")),
       (str "https://b", SettledRun.rejected (str "HTTP 502"))] 2 (by omega)⟩

/-- C9: the Derived-View Builder is deterministic and idempotent — the
hourly and daily net-flow aggregates are a pure function of the ledger
files and the wall-clock cutoffs, so two runs over a byte-identical ledger
with the same cutoffs produce identical aggregates; and both bucket lists
come out in canonical ascending key order. -/
theorem rebuild_deterministic (f1 f2 : List (List Event)) (rc1 rc2 hc1 hc2 : Str)
    (hf : f1 = f2) (hrc : rc1 = rc2) (hhc : hc1 = hc2) :
    rebuildAggregates f1 rc1 hc1 = rebuildAggregates f2 rc2 hc2
    ∧ List.Pairwise (fun a b => bucketKeyLe a b = true)
        (rebuildAggregates f1 rc1 hc1).1
    ∧ List.Pairwise (fun a b => bucketKeyLe a b = true)
        (rebuildAggregates f1 rc1 hc1).2 := by
  subst hf hrc hhc
  refine ⟨rfl, ?_, ?_⟩ <;>
    exact pairwise_sortLe bucketKeyLe
      (fun a b c hab hbc => strLe_trans _ _ _ hab hbc)
      (fun a b => strLe_total _ _) _

/-- C9 witness: determinism and ordering at a concrete one-file ledger. -/
theorem rebuild_deterministic_witness :
    rebuildAggregates [[mkEvent "e1"]] (str "2023-02-15T12:00:00.000Z")
        (str "2024-01-15T12:00:00.000Z")
      = rebuildAggregates [[mkEvent "e1"]] (str "2023-02-15T12:00:00.000Z")
        (str "2024-01-15T12:00:00.000Z")
    ∧ List.Pairwise (fun a b => bucketKeyLe a b = true)
        (rebuildAggregates [[mkEvent "e1"]] (str "2023-02-15T12:00:00.000Z")
          (str "2024-01-15T12:00:00.000Z")).1
    ∧ List.Pairwise (fun a b => bucketKeyLe a b = true)
        (rebuildAggregates [[mkEvent "e1"]] (str "2023-02-15T12:00:00.000Z")
          (str "2024-01-15T12:00:00.000Z")).2 :=
  rebuild_deterministic [[mkEvent "e1"]] [[mkEvent "e1"]]
    (str "2023-02-15T12:00:00.000Z") (str "2023-02-15T12:00:00.000Z")
    (str "2024-01-15T12:00:00.000Z") (str "2024-01-15T12:00:00.000Z")
    rfl rfl rfl

/-- C4 witness: idempotence at a concrete one-event run. -/
theorem ingest_idempotent_witness :
    freshEvents (writeRun emptyLedger [mkEvent "e1"] (str "2024-02-15T12:00:00.000Z"))
        [mkEvent "e1"] (str "2024-02-15T12:00:00.000Z") = []
    ∧ appendedCount (writeRun emptyLedger [mkEvent "e1"] (str "2024-02-15T12:00:00.000Z"))
        [mkEvent "e1"] (str "2024-02-15T12:00:00.000Z") = 0
    ∧ skippedExistingCount
        (writeRun emptyLedger [mkEvent "e1"] (str "2024-02-15T12:00:00.000Z"))
        [mkEvent "e1"] (str "2024-02-15T12:00:00.000Z") = [mkEvent "e1"].length
    ∧ writeRun (writeRun emptyLedger [mkEvent "e1"] (str "2024-02-15T12:00:00.000Z"))
        [mkEvent "e1"] (str "2024-02-15T12:00:00.000Z")
      = writeRun emptyLedger [mkEvent "e1"] (str "2024-02-15T12:00:00.000Z") :=
  ingest_idempotent emptyLedger [mkEvent "e1"] (str "2024-02-15T12:00:00.000Z")

/-- C5 amended witness: append-only plus sorted batch at a concrete run. -/
theorem partition_append_only_sorted_batch_witness :
    writeRun emptyLedger [mkEvent "e1"] (str "2024-02-15T12:00:00.000Z") (str "2024-02")
      = emptyLedger (str "2024-02")
        ++ appendForPartition
            (freshEvents emptyLedger [mkEvent "e1"] (str "2024-02-15T12:00:00.000Z"))
            (str "2024-02-15T12:00:00.000Z") (str "2024-02")
    ∧ List.Pairwise (fun a b => tsAscLe a b = true)
        (appendForPartition
          (freshEvents emptyLedger [mkEvent "e1"] (str "2024-02-15T12:00:00.000Z"))
          (str "2024-02-15T12:00:00.000Z") (str "2024-02")) :=
  partition_append_only_sorted_batch emptyLedger [mkEvent "e1"]
    (str "2024-02-15T12:00:00.000Z") (str "2024-02")

/-- A raw record that resolves a height but no timestamp. -/
def heightOnlyRecord : RawEvent :=
  { action := some (str "delegate"),
    amount_atom := some (JSNum.fin 7 1),
    height := some 12345 }

/-- The event `normalizeEvent` produces for `heightOnlyRecord`. -/
def demoHeightEvent : Event :=
  { id := str "cosmoshub-4||0|0|delegate|||7.000000|12345",
    chain_id := str "cosmoshub-4", source := str "p", type := str "delegate",
    txhash := [], msg_index := 0, event_index := 0, timestamp := none,
    height := 12345, delegator := [], validator_addr := [],
    validator_name := [], amount_atom := JSNum.fin 7 1,
    ingested_at := str "2024-02-15T12:00:00.000Z" }

/-- C10 witness: the fallback law at the concrete height-only record. -/
theorem height_only_partition_witness :
    (normalizeEvent heightOnlyRecord (str "p") (str "2024-02-15T12:00:00.000Z")
        = some demoHeightEvent
      ∧ demoHeightEvent.timestamp = none)
    ∧ (demoHeightEvent.height ≠ 0
      ∧ getPartitionKey demoHeightEvent.timestamp (str "2024-02-15T12:00:00.000Z")
          = monthKey (str "2024-02-15T12:00:00.000Z")) :=
  ⟨⟨by decide, by decide⟩,
    height_only_partition heightOnlyRecord (str "p")
      (str "2024-02-15T12:00:00.000Z") demoHeightEvent (by decide) (by decide)⟩
